import Mathlib

/-!
# Verification of the PDF chunk-translation pipeline

A shallow embedding of `src/app.py`: a Streamlit application that extracts
text from a PDF, splits it into overlapping chunks, translates each chunk
through the Gemini API, and reassembles the results in order while reporting
progress.

Text is modelled as `List Char` (Python `str`).  The remote Gemini API is
modelled as an oracle function `GenaiEnv` supplied as a parameter: for given
api-key, model-name and prompt it either returns the response text or an
exception message (the `Except.error` branch stands for any exception raised
inside the `try` block of `translate_text`: transport, authentication, quota
or malformed-response errors).

The chunker used at `app.py:118-123` is langchain's
`RecursiveCharacterTextSplitter`, whose code is not part of this repository;
it is modelled from the specification (see `split_text`).  Configuration
validation likewise has no code in the repository (it is enforced by UI
slider ranges), so it too is modelled from the specification
(see `validateConfig`).

Side effects of the run (API calls, result recording, progress updates, the
realtime display refresh and the `time.sleep(1)` pacing delay) are recorded
as an explicit trace of `Event`s in program order.
-/

namespace App

/-- Modelled from the spec: the Chunker (`split(text, chunkSize, overlap)`),
whose implementation (langchain's `RecursiveCharacterTextSplitter`, called at
`app.py:118-123`) is not part of this repository.  Per the spec's algorithm it
greedily walks the text producing segments of at most `chunkSize` characters,
each subsequent segment beginning `overlap` characters before the previous
segment's end; the optional "break at the latest whitespace boundary"
preference is taken with an empty lookback window (always the hard cut), the
only reading consistent with the spec's stated invariants (exact overlap `O`,
offsets at multiples of `S - O`).  Edge cases per the spec: empty input gives
zero chunks; text no longer than `chunkSize` gives a single chunk.  The
`chunkSize ≤ overlap` branch is unreachable under the precondition
`overlap < chunkSize` and only guards termination. -/
def split_text (S O : Nat) (t : List Char) : List (List Char) :=
  if t.length ≤ S then
    if t.length = 0 then [] else [t]
  else
    if _h : S ≤ O then [t]
    else t.take S :: split_text S O (t.drop (S - O))
termination_by t.length
decreasing_by
  simp only [List.length_drop]
  omega

/-- Removing the overlap regions: the first chunk is kept whole and every
later chunk contributes everything after its first `O` characters (the `O`
characters it repeats from its predecessor). -/
def dropOverlaps (O : Nat) : List (List Char) → List Char
  | [] => []
  | c :: cs => c ++ (cs.map (List.drop O)).flatten

/-- Adjacent chunks share exactly `O` characters: the last `O` characters of
each chunk coincide with the first `O` characters of its successor, and that
shared block really has length `O`. -/
def sharesOverlap (O : Nat) (a b : List Char) : Prop :=
  a.drop (a.length - O) = b.take O ∧ (b.take O).length = O

/-- The fixed marker prepended to every failure description returned by
`translate_text` (`app.py:62`). -/
def failureMarker : List Char := "翻訳中にエラーが発生しました: ".data

/-- The fixed instruction template of `app.py:45-56`, embedding the chunk
verbatim as the only variable content (the surrounding indentation
whitespace of the Python f-string is normalised away). -/
def buildPrompt (text_chunk : List Char) : List Char :=
  "あなたはプロの翻訳家です。以下の英文を、文脈を考慮し、自然で流暢な日本語に翻訳してください。\n専門用語は正確に訳し、元の文章の意図やニュアンスを忠実に再現してください。\n原文に関する解説などの追加情報や前置きは不要です。\n\n---\nEnglish Text:\n".data
    ++ text_chunk
    ++ "\n---\n\nJapanese Translation:\n".data

/-- The remote Gemini API as an oracle: given api-key, model name and the
prompt, it either returns the response text (`Except.ok`) or the message of
the exception the call raised (`Except.error`). -/
def GenaiEnv : Type :=
  List Char → List Char → List Char → Except (List Char) (List Char)

/-- `translate_text` (`app.py:36-62`): builds the prompt around the chunk,
performs the API call and returns the response text; any exception raised
inside the `try` block is caught and converted into the failure marker
followed by the exception message.  A total function: no exception escapes. -/
def translate_text (env : GenaiEnv) (text_chunk api_key model_name : List Char) :
    List Char :=
  match env api_key model_name (buildPrompt text_chunk) with
  | Except.ok t => t
  | Except.error e => failureMarker ++ e

/-- Observable side effects of a run, in program order.
`extractNotice` is the `st.error` call at `app.py:33`; `successExtract` is
`st.success` at `app.py:115`; `progressInit` is the creation of the progress
bar widget at `app.py:127` (not a per-chunk progress event); `call i` is the
`translate_text` invocation for chunk `i` (`app.py:137`); `record i` is the
append of chunk `i`'s result to `translated_chunks` (`app.py:138`);
`progress completed total` is the per-chunk progress-bar update at
`app.py:143`; `display` is the realtime text refresh at `app.py:146-150`;
`sleep s` is `time.sleep(s)` at `app.py:153`; `progressClear` is
`progress_bar.empty()` at `app.py:159`; `done` is the completion message at
`app.py:160`. -/
inductive Event where
  | extractNotice
  | successExtract
  | progressInit
  | call (i : Nat)
  | record (i : Nat)
  | progress (completed total : Nat)
  | display
  | sleep (seconds : Nat)
  | progressClear
  | done
deriving DecidableEq

/-- The translation loop of `app.py:135-153`: for each chunk in order,
translate it, record the result, update the progress bar with the count of
completed chunks, refresh the realtime display and sleep one second.
Returns the list `translated_chunks` and the trace of events, with `i` the
index of the first chunk of `cs` (the loop is entered with `i = 0`). -/
def runChunks (tr : List Char → List Char) (total : Nat) :
    Nat → List (List Char) → List (List Char) × List Event
  | _, [] => ([], [])
  | i, chunk :: rest =>
    let translated_chunk := tr chunk
    let r := runChunks tr total (i + 1) rest
    (translated_chunk :: r.1,
      Event.call i :: Event.record i :: Event.progress (i + 1) total ::
        Event.display :: Event.sleep 1 :: r.2)

/-- `extract_text_from_pdf` (`app.py:20-34`): the PDF is modelled as either a
list of page texts or a read failure.  On success the page texts are
concatenated (pages whose extracted text is falsy, i.e. empty, are skipped,
which does not change the concatenation); on failure an error notice is shown
and `None` is returned. -/
def extract_text_from_pdf (pdf : Except (List Char) (List (List Char))) :
    Option (List Char) × List Event :=
  match pdf with
  | Except.ok pages =>
    (some (pages.foldl
      (fun text page_text => if page_text = [] then text else text ++ page_text)
      []), [])
  | Except.error _ => (none, [Event.extractNotice])

/-- The session state written by a run: `st.session_state.translated_text`
and `st.session_state.original_text` (`app.py:98-101`, `106-107`, `112`,
`158`). -/
structure RunState where
  translated_text : List Char
  original_text : Option (List Char)
deriving DecidableEq

/-- The translation run triggered by the button (`app.py:104-160`): reset the
session state, extract the text, and — only when the extracted text is truthy
(not `None` and not empty, the `if original_text:` test at `app.py:114`) —
split it into chunks, translate them in order and store the concatenation
(`"".join(translated_chunks)`, `app.py:158`) in the session state.  Returns
the final session state and the event trace. -/
def appRun (env : GenaiEnv) (api_key model_name : List Char)
    (chunk_size chunk_overlap : Nat)
    (pdf : Except (List Char) (List (List Char))) : RunState × List Event :=
  let ex := extract_text_from_pdf pdf
  match ex.1 with
  | some original_text =>
    if original_text = [] then
      ({ translated_text := [], original_text := some original_text }, ex.2)
    else
      let chunks := split_text chunk_size chunk_overlap original_text
      let r := runChunks (fun c => translate_text env c api_key model_name)
        chunks.length 0 chunks
      ({ translated_text := r.1.flatten, original_text := some original_text },
        ex.2 ++ Event.successExtract :: Event.progressInit :: r.2
          ++ [Event.progressClear, Event.done])
  | none => ({ translated_text := [], original_text := none }, ex.2)

/-- The configuration-rejection outcome of the spec's error taxonomy. -/
inductive ConfigError where
  | invalidConfiguration
deriving DecidableEq

/-- Modelled from the spec: configuration validation
(`chunkSize > 0`, `0 ≤ overlap < chunkSize`, violation fails with
`InvalidConfiguration`).  The repository has no validation code of its own —
the bounds are enforced by the UI slider ranges at `app.py:82-89`, and the
splitter that would reject them is langchain code outside the repository. -/
def validateConfig (chunk_size chunk_overlap : Int) : Except ConfigError Unit :=
  if 0 < chunk_size ∧ 0 ≤ chunk_overlap ∧ chunk_overlap < chunk_size then
    Except.ok ()
  else
    Except.error ConfigError.invalidConfiguration

/-- Modelled from the spec: the validated run — the configuration is checked
before anything else, and an invalid configuration fails fast with
`InvalidConfiguration` before any chunk is processed (the error outcome
carries no run, hence no translator call and no event). -/
def runChecked (env : GenaiEnv) (api_key model_name : List Char)
    (chunk_size chunk_overlap : Int)
    (pdf : Except (List Char) (List (List Char))) :
    Except ConfigError (RunState × List Event) :=
  match validateConfig chunk_size chunk_overlap with
  | Except.error e => Except.error e
  | Except.ok () =>
    Except.ok (appRun env api_key model_name chunk_size.toNat chunk_overlap.toNat pdf)

/-- The progress events of a trace, as `(completedCount, totalCount)` pairs
in emission order. -/
def progressEvents : List Event → List (Nat × Nat) :=
  List.filterMap fun e =>
    match e with
    | Event.progress completed total => some (completed, total)
    | _ => none

/-- `split_text` on a nonempty text always begins with the first `S`
characters of the text. -/
theorem split_text_head (S O : Nat) (hO : O < S) (t : List Char) (ht : t ≠ []) :
    (split_text S O t).head? = some (t.take S) := by
  rw [split_text]
  by_cases h1 : t.length ≤ S
  · have : t.length ≠ 0 := by
      simpa using List.length_pos.mpr ht |>.ne'
    simp [h1, List.length_eq_zero.not.mpr ht, List.take_of_length_le h1]
  · simp [h1, show ¬ S ≤ O by omega]

/-- Auxiliary for the lossless-coverage proof: dropping the first `O`
characters of every chunk of `split_text S O u` and concatenating yields
`u.drop O`, whenever `O < u.length`.  Fuel induction on a length bound. -/
theorem split_text_drop_flatten (S O : Nat) (hO : O < S) :
    ∀ (n : Nat) (u : List Char), u.length ≤ n → O < u.length →
      ((split_text S O u).map (List.drop O)).flatten = u.drop O := by
  intro n
  induction n with
  | zero => intro u hu hOu; omega
  | succ m ih =>
    intro u hu hOu
    rw [split_text]
    by_cases h1 : u.length ≤ S
    · have : u.length ≠ 0 := by omega
      simp [h1, this]
    · have hSO : ¬ S ≤ O := by omega
      have hlen : (u.drop (S - O)).length ≤ m := by
        simp only [List.length_drop]; omega
      have hOlen : O < (u.drop (S - O)).length := by
        simp only [List.length_drop]; omega
      simp only [h1, if_false, hSO, dif_neg, not_false_iff, List.map_cons,
        List.flatten_cons, ih (u.drop (S - O)) hlen hOlen]
      rw [List.drop_take, List.drop_drop]
      have h4 : S - O + O = O + (S - O) := by omega
      rw [h4, ← List.drop_drop, List.take_append_drop]

/-- C1.  For every input text `T`, chunk size `S` and overlap `O` with
`0 ≤ O < S`, concatenating all chunks produced by the chunker with the
overlap regions removed reconstructs `T` exactly: no character of the input
is dropped. -/
theorem chunker_lossless_coverage (S O : Nat) (hO : O < S) (t : List Char) :
    dropOverlaps O (split_text S O t) = t := by
  rw [split_text]
  by_cases h1 : t.length ≤ S
  · by_cases h0 : t.length = 0
    · have : t = [] := List.length_eq_zero.mp h0
      simp [h1, h0, dropOverlaps, this]
    · simp [h1, h0, dropOverlaps]
  · have hSO : ¬ S ≤ O := by omega
    simp only [h1, if_false, hSO, dif_neg, not_false_iff, dropOverlaps]
    have hOlen : O < (t.drop (S - O)).length := by
      simp only [List.length_drop]; omega
    rw [split_text_drop_flatten S O hO (t.drop (S - O)).length _ le_rfl hOlen]
    rw [List.drop_drop]
    have h3 : S - O + O = S := by omega
    rw [h3, List.take_append_drop]

/-- Witness for C1: a concrete instantiation, `S = 3`, `O = 1`,
`T = "abcde"`. -/
theorem chunker_lossless_coverage_witness :
    dropOverlaps 1 (split_text 3 1 ['a', 'b', 'c', 'd', 'e'])
      = ['a', 'b', 'c', 'd', 'e'] :=
  chunker_lossless_coverage 3 1 (by decide) ['a', 'b', 'c', 'd', 'e']

/-- Every chunk produced by `split_text` has length at most `S`
(fuel induction on a length bound). -/
theorem split_text_length_le (S O : Nat) (hO : O < S) :
    ∀ (n : Nat) (u : List Char), u.length ≤ n →
      ∀ c ∈ split_text S O u, c.length ≤ S := by
  intro n
  induction n with
  | zero =>
    intro u hu c hc
    have h0 : u.length = 0 := by omega
    rw [split_text] at hc
    simp [h0] at hc
  | succ m ih =>
    intro u hu c hc
    rw [split_text] at hc
    by_cases h1 : u.length ≤ S
    · by_cases h0 : u.length = 0
      · simp [h1, h0] at hc
      · rw [if_pos h1, if_neg h0] at hc
        simp only [List.mem_singleton] at hc
        subst hc
        exact h1
    · have hSO : ¬ S ≤ O := by omega
      simp only [h1, if_false, hSO, dif_neg, not_false_iff, List.mem_cons] at hc
      rcases hc with rfl | hc
      · simp [List.length_take]
      · exact ih (u.drop (S - O)) (by simp only [List.length_drop]; omega) c hc

/-- Every adjacent pair of chunks produced by `split_text` shares exactly
`O` characters (fuel induction on a length bound). -/
theorem split_text_chain_overlap (S O : Nat) (hO : O < S) :
    ∀ (n : Nat) (u : List Char), u.length ≤ n →
      List.Chain' (sharesOverlap O) (split_text S O u) := by
  intro n
  induction n with
  | zero =>
    intro u hu
    rw [split_text]
    have h0 : u.length = 0 := by omega
    simp [h0, show (0 : Nat) ≤ S by omega]
  | succ m ih =>
    intro u hu
    rw [split_text]
    by_cases h1 : u.length ≤ S
    · by_cases h0 : u.length = 0 <;> simp [h1, h0]
    · have hSO : ¬ S ≤ O := by omega
      simp only [h1, if_false, hSO, dif_neg, not_false_iff]
      rw [List.chain'_cons']
      have hne : u.drop (S - O) ≠ [] := by
        intro h
        have := congrArg List.length h
        simp only [List.length_drop, List.length_nil] at this
        omega
      refine ⟨?_, ih (u.drop (S - O)) (by simp only [List.length_drop]; omega)⟩
      intro y hy
      rw [split_text_head S O hO _ hne] at hy
      simp only [Option.mem_def, Option.some_inj] at hy
      subst hy
      constructor
      · have hlt : (u.take S).length = S := by
          simp only [List.length_take]
          omega
        rw [hlt, List.drop_take, List.take_take]
        congr 1
        omega
      · simp only [List.take_take, List.length_take, List.length_drop]
        omega

/-- C4.  For every valid input `(T, S, O)` with `0 ≤ O < S`: every chunk
produced has length at most `S`, and every pair of adjacent chunks shares
exactly `O` characters of content (here proved for all pairs, final pair
included); moreover the claim's example holds: a text of 3400 characters
with `S = 1500`, `O = 200` yields 3 chunks whose lengths are 1500, 1500
and 800. -/
theorem chunker_bounds_and_overlap (S O : Nat) (hO : O < S) (t : List Char) :
    (∀ c ∈ split_text S O t, c.length ≤ S) ∧
    List.Chain' (sharesOverlap O) (split_text S O t) ∧
    (split_text 1500 200 (List.replicate 3400 'x')).map List.length
      = [1500, 1500, 800] := by
  refine ⟨split_text_length_le S O hO t.length t le_rfl,
    split_text_chain_overlap S O hO t.length t le_rfl, ?_⟩
  have e1 : split_text 1500 200 (List.replicate 3400 'x')
      = [List.replicate 1500 'x', List.replicate 1500 'x',
         List.replicate 800 'x'] := by
    rw [split_text]
    norm_num [List.take_replicate, List.drop_replicate]
    rw [split_text]
    norm_num [List.take_replicate, List.drop_replicate]
    rw [split_text]
    norm_num
  rw [e1]
  simp only [List.map_cons, List.map_nil, List.length_replicate]

/-- Witness for C4: the bounds and the overlap chain at `S = 3`, `O = 1`,
`T = "abcde"`. -/
theorem chunker_bounds_and_overlap_witness :
    (∀ c ∈ split_text 3 1 ['a', 'b', 'c', 'd', 'e'], c.length ≤ 3) ∧
    List.Chain' (sharesOverlap 1) (split_text 3 1 ['a', 'b', 'c', 'd', 'e']) ∧
    (split_text 1500 200 (List.replicate 3400 'x')).map List.length
      = [1500, 1500, 800] :=
  chunker_bounds_and_overlap 3 1 (by decide) ['a', 'b', 'c', 'd', 'e']

/-- The results of the translation loop are exactly the chunks translated in
order. -/
theorem runChunks_fst (tr : List Char → List Char) (total : Nat) :
    ∀ (cs : List (List Char)) (i : Nat), (runChunks tr total i cs).1 = cs.map tr := by
  intro cs
  induction cs with
  | nil => intro i; rfl
  | cons c cs ih =>
    intro i
    simp [runChunks, ih]

/-- The progress events of the translation loop, in closed form: one per
chunk, counting up from `i + 1`. -/
theorem runChunks_progress (tr : List Char → List Char) (total : Nat) :
    ∀ (cs : List (List Char)) (i : Nat),
      progressEvents (runChunks tr total i cs).2
        = (List.range' (i + 1) cs.length).map (fun c => (c, total)) := by
  intro cs
  induction cs with
  | nil => intro i; rfl
  | cons c cs ih =>
    intro i
    simp only [runChunks, progressEvents, List.filterMap_cons, List.length_cons,
      List.range'_succ, List.map_cons]
    exact congrArg _ (ih (i + 1))

/-- Every chunk index gives rise to a translator-call event in the loop's
trace. -/
theorem runChunks_call_mem (tr : List Char → List Char) (total : Nat) :
    ∀ (cs : List (List Char)) (j i : Nat), j < cs.length →
      Event.call (i + j) ∈ (runChunks tr total i cs).2 := by
  intro cs
  induction cs with
  | nil => intro j i hj; simp at hj
  | cons c cs ih =>
    intro j i hj
    match j with
    | 0 => simp [runChunks]
    | j' + 1 =>
      have hj' : j' < cs.length := by simpa using hj
      have h := ih j' (i + 1) hj'
      rw [show i + 1 + j' = i + (j' + 1) by omega] at h
      simp only [runChunks, List.mem_cons]
      exact Or.inr (Or.inr (Or.inr (Or.inr (Or.inr h))))

/-- The five events of each loop iteration sit at consecutive positions
`5j .. 5j+4` of the trace: call, record, progress, display, sleep. -/
theorem runChunks_events_at (tr : List Char → List Char) (total : Nat) :
    ∀ (cs : List (List Char)) (j i : Nat), j < cs.length →
      ((runChunks tr total i cs).2)[5 * j]? = some (Event.call (i + j)) ∧
      ((runChunks tr total i cs).2)[5 * j + 1]? = some (Event.record (i + j)) ∧
      ((runChunks tr total i cs).2)[5 * j + 2]?
        = some (Event.progress (i + j + 1) total) ∧
      ((runChunks tr total i cs).2)[5 * j + 4]? = some (Event.sleep 1) := by
  intro cs
  induction cs with
  | nil => intro j i hj; simp at hj
  | cons c cs ih =>
    intro j i hj
    match j with
    | 0 => refine ⟨?_, ?_, ?_, ?_⟩ <;> simp [runChunks]
    | j' + 1 =>
      have hj' : j' < cs.length := by simpa using hj
      have key : ∀ k : Nat,
          ((runChunks tr total i (c :: cs)).2)[5 + k]?
            = ((runChunks tr total (i + 1) cs).2)[k]? := by
        intro k
        rw [← List.getElem?_drop]
        simp [runChunks]
      obtain ⟨h1, h2, h3, h4⟩ := ih j' (i + 1) hj'
      refine ⟨?_, ?_, ?_, ?_⟩
      · rw [show 5 * (j' + 1) = 5 + 5 * j' by omega, key, h1,
          show i + 1 + j' = i + (j' + 1) by omega]
      · rw [show 5 * (j' + 1) + 1 = 5 + (5 * j' + 1) by omega, key, h2,
          show i + 1 + j' = i + (j' + 1) by omega]
      · rw [show 5 * (j' + 1) + 2 = 5 + (5 * j' + 2) by omega, key, h3,
          show i + 1 + j' + 1 = i + (j' + 1) + 1 by omega]
      · rw [show 5 * (j' + 1) + 4 = 5 + (5 * j' + 4) by omega, key, h4]

/-- C10.  The translator client is total: for every oracle behaviour, chunk
text, API key and model name, `translate_text` returns a string (it is a
total function into `List Char`, so no exception escapes), and it either
returns the API's response verbatim or, when the call raised, the fixed
failure marker followed by the exception description — so failed regions
are mechanically distinguishable inline. -/
theorem translator_total_and_marked (env : GenaiEnv)
    (text_chunk api_key model_name : List Char) :
    (∃ t, env api_key model_name (buildPrompt text_chunk) = Except.ok t ∧
      translate_text env text_chunk api_key model_name = t) ∨
    (∃ msg, env api_key model_name (buildPrompt text_chunk) = Except.error msg ∧
      translate_text env text_chunk api_key model_name = failureMarker ++ msg) := by
  cases h : env api_key model_name (buildPrompt text_chunk) with
  | ok t => exact Or.inl ⟨t, rfl, by simp [translate_text, h]⟩
  | error e => exact Or.inr ⟨e, rfl, by simp [translate_text, h]⟩

/-- C2.  A translator failure at chunk index `k` is converted locally into an
error-description string: the run is not aborted (the loop is a total
function and produces one result per chunk), every chunk is still attempted
(a call event exists for every index), the failure text sits at exactly
index `k`, and the whole output is the in-order image of the chunks — no
reordering. -/
theorem failure_isolated_in_order (env : GenaiEnv) (api_key model_name : List Char)
    (chunks : List (List Char)) (k : Nat) (msg : List Char)
    (hk : k < chunks.length)
    (hfail : env api_key model_name (buildPrompt chunks[k]) = Except.error msg) :
    (runChunks (fun c => translate_text env c api_key model_name)
        chunks.length 0 chunks).1.length = chunks.length ∧
    ((runChunks (fun c => translate_text env c api_key model_name)
        chunks.length 0 chunks).1)[k]? = some (failureMarker ++ msg) ∧
    (runChunks (fun c => translate_text env c api_key model_name)
        chunks.length 0 chunks).1
      = chunks.map (fun c => translate_text env c api_key model_name) ∧
    (∀ i, i < chunks.length →
      Event.call i ∈ (runChunks (fun c => translate_text env c api_key model_name)
        chunks.length 0 chunks).2) := by
  have hfst := runChunks_fst (fun c => translate_text env c api_key model_name)
    chunks.length chunks 0
  refine ⟨by rw [hfst]; simp, ?_, hfst, ?_⟩
  · rw [hfst, List.getElem?_map, List.getElem?_eq_getElem hk]
    simp only [Option.map_some', Option.some_inj]
    simp [translate_text, hfail]
  · intro i hi
    have := runChunks_call_mem (fun c => translate_text env c api_key model_name)
      chunks.length chunks i 0 hi
    simpa using this

/-- Witness for C2: two chunks, an oracle that always fails; the failure at
index 0 does not prevent chunk 1 and both results carry the marker. -/
theorem failure_isolated_in_order_witness :
    (runChunks (fun c => translate_text (fun _ _ _ => Except.error ['!']) c [] [])
        2 0 [['a'], ['b']]).1.length = 2 ∧
    ((runChunks (fun c => translate_text (fun _ _ _ => Except.error ['!']) c [] [])
        2 0 [['a'], ['b']]).1)[0]? = some (failureMarker ++ ['!']) ∧
    (runChunks (fun c => translate_text (fun _ _ _ => Except.error ['!']) c [] [])
        2 0 [['a'], ['b']]).1
      = [['a'], ['b']].map
          (fun c => translate_text (fun _ _ _ => Except.error ['!']) c [] []) ∧
    (∀ i, i < ([['a'], ['b']] : List (List Char)).length →
      Event.call i ∈ (runChunks
        (fun c => translate_text (fun _ _ _ => Except.error ['!']) c [] [])
        2 0 [['a'], ['b']]).2) :=
  failure_isolated_in_order (fun _ _ _ => Except.error ['!']) [] []
    [['a'], ['b']] 0 ['!'] (by decide) rfl

/-- C3.  Over `N` chunks the orchestrator emits exactly `N` progress events,
with `completedCount` taking every value `1..N` exactly once in increasing
order (the event list is literally `[(1, N), ..., (N, N)]`), and when at
least one chunk exists the final event has `completedCount = totalCount`. -/
theorem progress_monotone_complete (tr : List Char → List Char)
    (cs : List (List Char)) :
    progressEvents (runChunks tr cs.length 0 cs).2
      = (List.range' 1 cs.length).map (fun c => (c, cs.length)) ∧
    (progressEvents (runChunks tr cs.length 0 cs).2).length = cs.length ∧
    (cs ≠ [] → (progressEvents (runChunks tr cs.length 0 cs).2).getLast?
      = some (cs.length, cs.length)) := by
  have h := runChunks_progress tr cs.length cs 0
  refine ⟨h, by rw [h]; simp, ?_⟩
  intro hne
  rw [h]
  obtain ⟨n, hn⟩ : ∃ n, cs.length = n + 1 :=
    ⟨cs.length - 1, by cases cs with | nil => exact absurd rfl hne | cons _ _ => simp⟩
  rw [hn, List.range'_concat, List.map_append]
  simp only [List.map_cons, List.map_nil, List.getLast?_concat,
    Option.some_inj, Prod.mk.injEq]
  exact ⟨by omega, trivial⟩

/-- Witness for C3 (for its final-event clause): two chunks, identity
translator. -/
theorem progress_monotone_complete_witness :
    progressEvents (runChunks (fun c => c) 2 0 [['a'], ['b']]).2
      = (List.range' 1 2).map (fun c => (c, 2)) ∧
    (progressEvents (runChunks (fun c => c) 2 0 [['a'], ['b']]).2).length = 2 ∧
    (([['a'], ['b']] : List (List Char)) ≠ [] →
      (progressEvents (runChunks (fun c => c) 2 0 [['a'], ['b']]).2).getLast?
        = some (2, 2)) := by
  have h := progress_monotone_complete (fun c => c) [['a'], ['b']]
  exact ⟨h.1, h.2.1, h.2.2⟩

/-- C7.  The assembled final text is the concatenation of the per-chunk
translated texts (or embedded failure markers) in chunk-index order with no
separator added: `st.session_state.translated_text` equals the flat
concatenation of the image of the chunk list under the translator. -/
theorem assembled_text_is_ordered_concat (env : GenaiEnv)
    (api_key model_name : List Char) (S O : Nat) (t : List Char) (ht : t ≠ []) :
    (appRun env api_key model_name S O (Except.ok [t])).1.translated_text
      = ((split_text S O t).map
          (fun c => translate_text env c api_key model_name)).flatten := by
  simp only [appRun, extract_text_from_pdf, List.foldl_cons, List.foldl_nil,
    if_neg ht, List.nil_append]
  simp only [runChunks_fst]

/-- Witness for C7: one-character text, constant oracle. -/
theorem assembled_text_is_ordered_concat_witness :
    (appRun (fun _ _ _ => Except.ok ['y']) [] [] 3 1 (Except.ok [['a']])).1.translated_text
      = ((split_text 3 1 ['a']).map
          (fun c => translate_text (fun _ _ _ => Except.ok ['y']) c [] [])).flatten :=
  assembled_text_is_ordered_concat (fun _ _ _ => Except.ok ['y']) [] [] 3 1 ['a']
    (by decide)

/-- C8.  The mandatory pacing delay: in every run, each loop iteration `j`
puts `record j` at trace position `5j+1`, the progress event at `5j+2` and
`time.sleep(1)` at `5j+4`, and the next chunk's translator call sits at
position `5(j+1)` — so the one-second sleep falls after chunk `j`'s result
is recorded and its progress event emitted, and before chunk `j+1`'s call
is issued. -/
theorem pacing_delay_between_chunks (tr : List Char → List Char) (total : Nat)
    (cs : List (List Char)) (j : Nat) (hj : j < cs.length) :
    ((runChunks tr total 0 cs).2)[5 * j + 1]? = some (Event.record j) ∧
    ((runChunks tr total 0 cs).2)[5 * j + 2]?
      = some (Event.progress (j + 1) total) ∧
    ((runChunks tr total 0 cs).2)[5 * j + 4]? = some (Event.sleep 1) ∧
    (j + 1 < cs.length →
      ((runChunks tr total 0 cs).2)[5 * (j + 1)]? = some (Event.call (j + 1))) := by
  obtain ⟨-, h2, h3, h4⟩ := runChunks_events_at tr total cs j 0 hj
  refine ⟨by simpa using h2, by simpa using h3, h4, ?_⟩
  intro hj1
  have h := (runChunks_events_at tr total cs (j + 1) 0 hj1).1
  simpa using h

/-- Witness for C8: two chunks, identity translator, iteration `j = 0`. -/
theorem pacing_delay_between_chunks_witness :
    ((runChunks (fun c => c) 2 0 [['a'], ['b']]).2)[5 * 0 + 1]?
      = some (Event.record 0) ∧
    ((runChunks (fun c => c) 2 0 [['a'], ['b']]).2)[5 * 0 + 2]?
      = some (Event.progress (0 + 1) 2) ∧
    ((runChunks (fun c => c) 2 0 [['a'], ['b']]).2)[5 * 0 + 4]?
      = some (Event.sleep 1) ∧
    (0 + 1 < ([['a'], ['b']] : List (List Char)).length →
      ((runChunks (fun c => c) 2 0 [['a'], ['b']]).2)[5 * (0 + 1)]?
        = some (Event.call (0 + 1))) :=
  pacing_delay_between_chunks (fun c => c) 2 [['a'], ['b']] 0 (by decide)

/-- C6.  Empty input yields zero chunks, and the run completes immediately
with no progress event and empty final text; nonempty input shorter than the
chunk size yields exactly one chunk equal to the whole input. -/
theorem empty_and_short_input (S O : Nat) (env : GenaiEnv)
    (api_key model_name : List Char) :
    split_text S O [] = [] ∧
    (∀ t : List Char, t ≠ [] → t.length < S → split_text S O t = [t]) ∧
    appRun env api_key model_name S O (Except.ok [])
      = ({ translated_text := [], original_text := some [] }, []) ∧
    progressEvents (appRun env api_key model_name S O (Except.ok [])).2 = [] := by
  refine ⟨by rw [split_text]; simp, ?_, rfl, rfl⟩
  intro t ht hlen
  rw [split_text]
  rw [if_pos (by omega), if_neg (by simpa using List.length_pos.mpr ht |>.ne')]

/-- Witness for C6: `S = 3`, `O = 1`, the empty PDF and the one-character
text `"a"`. -/
theorem empty_and_short_input_witness :
    split_text 3 1 [] = [] ∧
    split_text 3 1 ['a'] = [['a']] ∧
    appRun (fun _ _ _ => Except.ok ['y']) [] [] 3 1 (Except.ok [])
      = ({ translated_text := [], original_text := some [] }, []) ∧
    progressEvents
      (appRun (fun _ _ _ => Except.ok ['y']) [] [] 3 1 (Except.ok [])).2 = [] := by
  have h := empty_and_short_input 3 1 (fun _ _ _ => Except.ok ['y']) [] []
  exact ⟨h.1, h.2.1 ['a'] (by decide) (by decide), h.2.2.1, h.2.2.2⟩

/-- C9.  When extraction produces no text (`None`), no run is started: the
session state keeps an empty translation, the trace consists of the single
non-fatal error notice, and in particular no translator call is made; the
model is a total function, so nothing crashes. -/
theorem extraction_unavailable_no_run (env : GenaiEnv)
    (api_key model_name : List Char) (S O : Nat) (err : List Char) :
    appRun env api_key model_name S O (Except.error err)
      = ({ translated_text := [], original_text := none }, [Event.extractNotice]) ∧
    Event.extractNotice ∈ (appRun env api_key model_name S O (Except.error err)).2 ∧
    ∀ i, Event.call i ∉ (appRun env api_key model_name S O (Except.error err)).2 := by
  refine ⟨rfl, by simp [appRun, extract_text_from_pdf], ?_⟩
  intro i
  simp [appRun, extract_text_from_pdf]

/-- C5.  Every configuration with `chunkSize ≤ 0`, `overlap < 0` or
`overlap ≥ chunkSize` is rejected fast with `InvalidConfiguration`; the
rejection carries no run, so no chunk is processed and no translator call is
made. -/
theorem invalid_configuration_fails_fast (env : GenaiEnv)
    (api_key model_name : List Char) (chunk_size chunk_overlap : Int)
    (pdf : Except (List Char) (List (List Char)))
    (h : chunk_size ≤ 0 ∨ chunk_overlap < 0 ∨ chunk_size ≤ chunk_overlap) :
    runChecked env api_key model_name chunk_size chunk_overlap pdf
      = Except.error ConfigError.invalidConfiguration := by
  unfold runChecked validateConfig
  rw [if_neg (by omega)]

/-- Witness for C5: `chunkSize = 0` is rejected. -/
theorem invalid_configuration_fails_fast_witness :
    runChecked (fun _ _ _ => Except.ok ['y']) [] [] 0 0 (Except.ok [['a']])
      = Except.error ConfigError.invalidConfiguration :=
  invalid_configuration_fails_fast (fun _ _ _ => Except.ok ['y']) [] [] 0 0
    (Except.ok [['a']]) (Or.inl (by decide))

end App
